import Mathlib

/-!
Verification development for the firevault struct-tag validation and
transformation engine (Go).  The definitions below are a shallow embedding
of the current revisions of validator.go, built_in.go, utils.go,
collection.go and connect.go: pure Go functions become Lean functions,
the in-place mutation of the record by the field walker becomes explicit
state passing (the walker returns the updated field list next to the
output document), and fallible Go code returning (T, error) becomes
Except GoErr T.  Go standard-library helpers used by the code
(strings.Split, strings.TrimSpace, strings.Cut, strconv.ParseInt,
time.Parse) are modelled by the goSplitOn / goTrim / goCutEq /
goParseIntBase0 / goTimeParse functions; the restrictions of these stdlib
models are stated in their doc comments.
-/

namespace Firevault

/-- Model of Go unicode.IsSpace restricted to the ASCII whitespace
characters that strings.TrimSpace strips in practice for tag strings. -/
def goIsSpace (c : Char) : Bool :=
  c = ' ' || c = '\t' || c = '\n' || c = '\r'

/-- Model of Go strings.TrimSpace: drop whitespace from both ends. -/
def goTrim (s : String) : String :=
  String.mk (((s.data.dropWhile goIsSpace).reverse.dropWhile goIsSpace).reverse)

/-- Split a character list at every occurrence of the separator. -/
def goSplitChars (sep : Char) : List Char → List (List Char)
  | [] => [[]]
  | c :: cs =>
    let rest := goSplitChars sep cs
    if c = sep then [] :: rest
    else match rest with
      | [] => [[c]]
      | r :: rs => (c :: r) :: rs

/-- Model of Go strings.Split with a one-character separator. -/
def goSplitOn (sep : Char) (s : String) : List String :=
  (goSplitChars sep s.data).map String.mk

/-- Model of Go strings.Cut(s, sep) for a one-character separator:
returns the part before the first occurrence and the part after it
(the whole string and "" when the separator does not occur). -/
def goCutChars (sep : Char) : List Char → List Char × List Char
  | [] => ([], [])
  | c :: cs =>
    if c = sep then ([], cs)
    else
      let (pre, post) := goCutChars sep cs
      (c :: pre, post)

/-- Model of Go strings.Cut(rule, "=") as used by applyRules: the rule
name before the first '=' and the parameter after it. -/
def goCutEq (s : String) : String × String :=
  let (pre, post) := goCutChars '=' s.data
  (String.mk pre, String.mk post)

/-- Model of Go strings.HasPrefix. -/
def goHasPre (pre s : String) : Bool :=
  pre.data.isPrefixOf s.data

/-- Model of Go strings.TrimPrefix: drop the prefix when present. -/
def goDropPre (pre s : String) : String :=
  if goHasPre pre s then String.mk (s.data.drop pre.data.length) else s

/-- Errors produced by the engine.  A Go error is either a plain error
(errors.New / fmt.Errorf) or a structured fieldError; the fieldError
fields value, kind and typ of validator.go are diagnostic only and are
not carried in the model.  panicErr renders a Go runtime panic (the
reflect.Set call of the walker on an unassignable value); it is an
outcome of the source, not an error value the source constructs.
outOfFuel is the rendering in this model of a recursion of the Go
walker deeper than the chosen fuel bound (the Go recursion has no
syntactic bound: a transformation may return a struct that is walked
again). -/
inductive GoErr where
  | plain (msg : String)
  | fieldErr (code tag field structField param : String)
  | panicErr (msg : String)
  | outOfFuel
  deriving Repr, DecidableEq

/-- Decimal digit test used by the strconv and time.Parse models. -/
def goIsDigit (c : Char) : Bool :=
  '0' ≤ c && c ≤ '9'

/-- Value of a list of decimal digits. -/
def goDigitsToNat : List Char → Nat → Nat
  | [], acc => acc
  | c :: cs, acc => goDigitsToNat cs (acc * 10 + (c.toNat - '0'.toNat))

/-- Model of Go strconv.ParseUint(s, 0, 64) restricted to plain decimal
numerals: no sign, at least one digit, all digits decimal, no base
prefix (a leading 0 with further digits selects octal in Go and is
rejected here), result below 2^64.  Underscore digit separators are not
modelled. -/
def goParseUintBase0 (s : String) : Except GoErr Nat :=
  match s.data with
  | [] => .error (.plain ("firevault: invalid uint syntax " ++ s))
  | c :: cs =>
    if c = '0' ∧ cs ≠ [] then .error (.plain ("firevault: invalid uint syntax " ++ s))
    else if (c :: cs).all goIsDigit then
      let n := goDigitsToNat (c :: cs) 0
      if n < 2 ^ 64 then .ok n
      else .error (.plain ("firevault: uint out of range " ++ s))
    else .error (.plain ("firevault: invalid uint syntax " ++ s))

/-- Model of Go strconv.ParseInt(s, 0, 64) restricted to plain decimal
numerals with an optional sign, under the same restrictions as
goParseUintBase0; result within the int64 range. -/
def goParseIntBase0 (s : String) : Except GoErr Int :=
  match s.data with
  | [] => .error (.plain ("firevault: invalid int syntax " ++ s))
  | c :: cs =>
    let (neg, digits) : Bool × List Char :=
      if c = '-' then (true, cs) else if c = '+' then (false, cs) else (false, c :: cs)
    match digits with
    | [] => .error (.plain ("firevault: invalid int syntax " ++ s))
    | d :: ds =>
      if d = '0' ∧ ds ≠ [] then .error (.plain ("firevault: invalid int syntax " ++ s))
      else if (d :: ds).all goIsDigit then
        let n := goDigitsToNat (d :: ds) 0
        let v : Int := if neg then -(n : Int) else (n : Int)
        if -(2 ^ 63 : Int) ≤ v ∧ v < 2 ^ 63 then .ok v
        else .error (.plain ("firevault: int out of range " ++ s))
      else .error (.plain ("firevault: invalid int syntax " ++ s))

/-- utils.go asInt: the parameter as an int64, or an error. -/
def asInt (param : String) : Except GoErr Int :=
  goParseIntBase0 param

/-- utils.go asUint: the parameter as a uint64, or an error. -/
def asUint (param : String) : Except GoErr Nat :=
  goParseUintBase0 param

/-- Instants of the model of time.Time: an integer chronological
coordinate.  Go t.After(u) is t > u, t.Before(u) is t < u, and the zero
Time (IsZero) is coordinate 0.  The model of time.Parse below supports
the reference layout "2006" (a bare four-digit year) and yields the
year number as the coordinate, so chronological order is year order. -/
def goTimeParse (layout value : String) : Except GoErr Int :=
  if layout = "2006" ∧ value.data.length = 4 ∧ value.data.all goIsDigit then
    .ok (goDigitsToNat value.data 0 : Int)
  else .error (.plain ("firevault: cannot parse time " ++ value))

/-- utils.go asTime: the parameter must be "layout|value"; parts beyond
the second are ignored, fewer than two parts is an error. -/
def asTime (param : String) : Except GoErr Int :=
  match goSplitOn '|' param with
  | layout :: value :: _ => goTimeParse layout value
  | _ => .error (.plain "firevault: time param must be in the format layout|value")

mutual
/-- The runtime values the walker traverses (the kinds the engine
distinguishes).  Pointers, slices and maps carry an Option: none is the
Go nil pointer / nil slice / nil map.  vtime is the time.Time struct
(and any struct type convertible to it), carried as an opaque instant.
vfunc stands for the unsupported kinds (func, chan): isSupported is
false exactly there.  Float fields and interface fields are outside the
model; no claim concerns them. -/
inductive GoValue where
  | vstr (s : String)
  | vint (n : Int)
  | vuint (n : Nat)
  | vbool (b : Bool)
  | vtime (t : Int)
  | vptr (p : Option GoValue)
  | vslice (xs : Option (List GoValue))
  | vmap (entries : Option (List (String × GoValue)))
  | vstruct (fields : List GoField)
  | vfunc
  deriving Repr

/-- One struct field: the Go field identifier, its firevault tag ("",
when the field carries no firevault tag) and its current value. -/
inductive GoField where
  | mk (name : String) (tag : String) (value : GoValue)
  deriving Repr
end

/-- The Go field identifier of a field. -/
def GoField.fname : GoField → String
  | .mk n _ _ => n

/-- The firevault tag of a field. -/
def GoField.tag : GoField → String
  | .mk _ t _ => t

/-- The current value of a field. -/
def GoField.value : GoField → GoValue
  | .mk _ _ v => v

mutual
/-- Model of reflect.Value.IsZero: a string is zero when empty, numbers
when 0, booleans when false, time when the zero instant, pointers,
slices and maps when nil, and a struct when every field value is zero.
vfunc never reaches a zero check (isSupported rejects it first); it is
mapped to the Go nil-func answer true. -/
def goIsZero : GoValue → Bool
  | .vstr s => s = ""
  | .vint n => n = 0
  | .vuint n => n = 0
  | .vbool b => !b
  | .vtime t => t = 0
  | .vptr p => p.isNone
  | .vslice xs => xs.isNone
  | .vmap entries => entries.isNone
  | .vstruct fields => goFieldsZero fields
  | .vfunc => true

/-- All field values of a struct are zero. -/
def goFieldsZero : List GoField → Bool
  | [] => true
  | .mk _ _ v :: rest => goIsZero v && goFieldsZero rest
end

mutual
/-- Nesting depth of a value (leaves count 1); it bounds the recursion
of the value-equality test below. -/
def goDepth : GoValue → Nat
  | .vptr (some a) => goDepth a + 1
  | .vslice (some xs) => goDepthList xs + 1
  | .vmap (some es) => goDepthEntries es + 1
  | .vstruct fs => goDepthFields fs + 1
  | _ => 1

/-- Largest depth of a value list. -/
def goDepthList : List GoValue → Nat
  | [] => 0
  | x :: xs => max (goDepth x) (goDepthList xs)

/-- Largest depth of a map entry list. -/
def goDepthEntries : List (String × GoValue) → Nat
  | [] => 0
  | (_, x) :: xs => max (goDepth x) (goDepthEntries xs)

/-- Largest depth of a field list. -/
def goDepthFields : List GoField → Nat
  | [] => 0
  | .mk _ _ x :: xs => max (goDepth x) (goDepthFields xs)
end

/-- Elementwise comparison of two lists under a given test. -/
def listEqWith {α β : Type} (f : α → β → Bool) : List α → List β → Bool
  | [], [] => true
  | x :: xs, y :: ys => f x y && listEqWith f xs ys
  | _, _ => false

/-- Depth-bounded Boolean equality of values: recursion happens only
when the head constructors of both sides agree, consuming one depth
level of the first argument per step, so the bound goDepth of the first
argument (used by goValueEq below) always suffices. -/
def goValueEqF : Nat → GoValue → GoValue → Bool
  | 0, _, _ => false
  | fuel + 1, a, b =>
    match a, b with
    | .vstr x, .vstr y => x == y
    | .vint x, .vint y => x == y
    | .vuint x, .vuint y => x == y
    | .vbool x, .vbool y => x == y
    | .vtime x, .vtime y => x == y
    | .vptr none, .vptr none => true
    | .vptr (some x), .vptr (some y) => goValueEqF fuel x y
    | .vslice none, .vslice none => true
    | .vslice (some xs), .vslice (some ys) => listEqWith (goValueEqF fuel) xs ys
    | .vmap none, .vmap none => true
    | .vmap (some xs), .vmap (some ys) =>
      listEqWith (fun p q => p.1 == q.1 && goValueEqF fuel p.2 q.2) xs ys
    | .vstruct xs, .vstruct ys =>
      listEqWith (fun f g =>
        match f, g with
        | GoField.mk n1 t1 x, GoField.mk n2 t2 y =>
          n1 == n2 && t1 == t2 && goValueEqF fuel x y) xs ys
    | .vfunc, .vfunc => true
    | _, _ => false

/-- Boolean equality of values: the model of the reflect.Value
inequality test newFieldValue != fieldValue guarding the write-back in
validateFields.  Go compares Value identity there, so a transformation
that fired always registers as a change; the model compares the values
themselves, which coincides except when a transformation returns a
value equal to the one it received. -/
def goValueEq (a b : GoValue) : Bool :=
  goValueEqF (goDepth a) a b

/-- Kind-level assignability for the reflect.Set call of the walker: a
value may be written into a field slot exactly when it has the kind of
the value the slot holds (the model collapses element, pointee and
struct types within one kind). -/
def sameKindG : GoValue → GoValue → Bool
  | .vstr _, .vstr _ => true
  | .vint _, .vint _ => true
  | .vuint _, .vuint _ => true
  | .vbool _, .vbool _ => true
  | .vtime _, .vtime _ => true
  | .vptr _, .vptr _ => true
  | .vslice _, .vslice _ => true
  | .vmap _, .vmap _ => true
  | .vstruct _, .vstruct _ => true
  | .vfunc, .vfunc => true
  | _, _ => false

/-- built_in.go hasValue: nil check for slice / map / pointer kinds,
IsValid and not IsZero otherwise (all modelled values are valid). -/
def hasValue (fieldValue : GoValue) : Bool :=
  match fieldValue with
  | .vptr p => p.isSome
  | .vslice xs => xs.isSome
  | .vmap entries => entries.isSome
  | v => !goIsZero v

/-- built_in.go isSupported: every kind except Invalid, Chan and Func
(collapsed into vfunc in the model). -/
def isSupported (fieldValue : GoValue) : Bool :=
  match fieldValue with
  | .vfunc => false
  | _ => true

/-- reflect Len() of the kinds validateMin / validateMax measure:
byte length for strings, element count for slices / arrays and maps
(0 for nil slices and maps). -/
def goLen : GoValue → Nat
  | .vstr s => s.utf8ByteSize
  | .vslice none => 0
  | .vslice (some xs) => xs.length
  | .vmap none => 0
  | .vmap (some entries) => entries.length
  | _ => 0

/-- A validation function: resolved field path, reflected value and
string parameter to pass / fail / error.  The Go context argument is
not modelled (no built-in reads it). -/
def ValidationFn : Type :=
  String → GoValue → String → Except GoErr Bool

/-- A transformation function: resolved field path and reflected value
to an optional replacement value (none models a nil interface return)
or an error. -/
def TransformationFn : Type :=
  String → GoValue → Except GoErr (Option GoValue)

/-- built_in.go validateRequired. -/
def validateRequired : ValidationFn :=
  fun _ fieldValue _ => .ok (hasValue fieldValue)

/-- Stand-in for the RFC-5322 e-mail regular expression of
built_in.go, which is not modelled: no claim concerns the email rule,
so any Boolean predicate on the string leaves every theorem below
unaffected.  Non-string kinds give Go value.String() placeholders that
never match; they are mapped to "". -/
def emailRegexMatch (s : String) : Bool :=
  s.data.contains '@'

/-- built_in.go validateEmail. -/
def validateEmail : ValidationFn :=
  fun _ fieldValue _ =>
    match fieldValue with
    | .vstr s => .ok (emailRegexMatch s)
    | _ => .ok false

/-- built_in.go validateMax: passes when length / numeric value is at
most the parameter; for a time-like struct the source returns
t.After(max) (and swallows a time-parameter parse error as a plain
failed validation).  The float kinds are outside the value model. -/
def validateMax : ValidationFn :=
  fun fieldPath fieldValue param =>
    if param = "" then .error (.plain ("firevault: provide a max param - " ++ fieldPath))
    else
      match fieldValue with
      | .vstr s => do
        let i ← asInt param
        .ok (decide (((goLen (.vstr s)) : Int) ≤ i))
      | .vslice xs => do
        let i ← asInt param
        .ok (decide (((goLen (.vslice xs)) : Int) ≤ i))
      | .vmap entries => do
        let i ← asInt param
        .ok (decide (((goLen (.vmap entries)) : Int) ≤ i))
      | .vint n => do
        let i ← asInt param
        .ok (decide (n ≤ i))
      | .vuint n => do
        let u ← asUint param
        .ok (decide (n ≤ u))
      | .vtime t =>
        match asTime param with
        | .error _ => .ok false
        | .ok mx => .ok (decide (mx < t))
      | _ => .error (.plain ("firevault: invalid field type - " ++ fieldPath))

/-- built_in.go validateMin: passes when length / numeric value is at
least the parameter; for a time-like struct the source returns
t.Before(min). -/
def validateMin : ValidationFn :=
  fun fieldPath fieldValue param =>
    if param = "" then .error (.plain ("firevault: provide a min param - " ++ fieldPath))
    else
      match fieldValue with
      | .vstr s => do
        let i ← asInt param
        .ok (decide (i ≤ ((goLen (.vstr s)) : Int)))
      | .vslice xs => do
        let i ← asInt param
        .ok (decide (i ≤ ((goLen (.vslice xs)) : Int)))
      | .vmap entries => do
        let i ← asInt param
        .ok (decide (i ≤ ((goLen (.vmap entries)) : Int)))
      | .vint n => do
        let i ← asInt param
        .ok (decide (i ≤ n))
      | .vuint n => do
        let u ← asUint param
        .ok (decide (u ≤ n))
      | .vtime t =>
        match asTime param with
        | .error e => .error e
        | .ok mn => .ok (decide (t < mn))
      | _ => .error (.plain ("firevault: invalid field type - " ++ fieldPath))

/-- collection.go / connect.go methodType: the three call methods. -/
inductive MethodType where
  | mvalidate
  | mcreate
  | mupdate
  deriving Repr, DecidableEq

/-- The string value of a methodType constant. -/
def methodStr : MethodType → String
  | .mvalidate => "validate"
  | .mcreate => "create"
  | .mupdate => "update"

/-- built_in.go builtInValidators: the predefined rule registry. -/
def builtInValidators : List (String × ValidationFn) :=
  [("required", validateRequired),
   ("required_create", validateRequired),
   ("required_update", validateRequired),
   ("required_validate", validateRequired),
   ("email", validateEmail),
   ("max", validateMax),
   ("min", validateMin)]

/-- Lookup in a registry (Go map access m[name]). -/
def lookupFn {α : Type} (registry : List (String × α)) (name : String) : Option α :=
  match registry with
  | [] => none
  | (k, f) :: rest => if k = name then some f else lookupFn rest name

/-- validator.go validator: the rule registry. -/
structure Validator where
  validations : List (String × ValidationFn)
  transformations : List (String × TransformationFn)

/-- validator.go newValidator: a fresh registry seeded with the
built-ins (the registration loop always succeeds on them). -/
def newValidator : Validator :=
  { validations := builtInValidators, transformations := [] }

/-- validator.go parseTag: split the raw tag on ',' and trim each
segment, appending every trimmed segment (the current revision drops
none of them). -/
def parseTagLoop : List String → List String
  | [] => []
  | rule :: rest => goTrim rule :: parseTagLoop rest

/-- validator.go parseTag. -/
def parseTag (tag : String) : List String :=
  parseTagLoop (goSplitOn ',' tag)

/-- connect.go validationOpts: the per-call options consumed by the
validator (method kind, skip-all flag, skip-required flag and the
allow-list of field paths that may stay empty).  collection.go builds
this from the caller-facing ValidationOptions. -/
structure validationOpts where
  method : MethodType
  skipValidation : Bool
  skipRequired : Bool
  emptyFieldsAllowed : List String
  deriving Repr, DecidableEq

/-- collection.go ValidationOptions: the caller-facing options of the
Validate method (AllowEmptyFields entries are FieldPath values, i.e.
lists of path segments). -/
structure ValidationOptions where
  SkipValidation : Bool
  SkipRequired : Bool
  AllowEmptyFields : List (List String)
  deriving Repr, DecidableEq

/-- validator.go getFieldPath: dot-separated field path. -/
def getFieldPath (path fieldName : String) : String :=
  if path = "" then fieldName else path ++ "." ++ fieldName

/-- validator.go shouldSkipField: skip when an omitempty tag (general
or method-scoped) is present, the field path is not allow-listed, and
the value is empty. -/
def shouldSkipField
    (fieldValue : GoValue) (fieldPath : String)
    (rules : List String) (opts : validationOpts) : Bool :=
  let omitEmptyMethodTag := "omitempty_" ++ methodStr opts.method
  let shouldOmitEmpty := rules.contains "omitempty" || rules.contains omitEmptyMethodTag
  if shouldOmitEmpty && !(opts.emptyFieldsAllowed.contains fieldPath) then
    !hasValue fieldValue
  else false

/-- validator.go cleanRules, indexed loop: drop the name slot (index 0)
and every omitempty tag. -/
def cleanRulesLoop (index : Nat) : List String → List String
  | [] => []
  | rule :: rest =>
    if index ≠ 0 ∧ rule ≠ "omitempty" ∧ rule ≠ "omitempty_" ++ methodStr .mcreate ∧
        rule ≠ "omitempty_" ++ methodStr .mupdate ∧ rule ≠ "omitempty_" ++ methodStr .mvalidate then
      rule :: cleanRulesLoop (index + 1) rest
    else cleanRulesLoop (index + 1) rest

/-- validator.go cleanRules. -/
def cleanRules (rules : List String) : List String :=
  cleanRulesLoop 0 rules

/-- validator.go applyRules: dispatch the rule tokens in order on the
working value, threading transformation results.  Note the source
computes the method-scoped required tag as "required" + method with no
underscore separator (unlike the omitempty tags). -/
def applyRules
    (vd : Validator) (method : MethodType)
    (fieldPath fieldName structFieldName : String) :
    GoValue → List String → Except GoErr GoValue
  | fieldValue, [] => .ok fieldValue
  | fieldValue, rule :: rest =>
    let requiredMethodTag := "required" ++ methodStr method
    let isRequiredRule := rule = "required" || rule = requiredMethodTag
    if !hasValue fieldValue && !isRequiredRule then
      applyRules vd method fieldPath fieldName structFieldName fieldValue rest
    else if goHasPre "transform=" rule then
      let transName := goDropPre "transform=" rule
      match lookupFn vd.transformations transName with
      | some transformation =>
        match transformation fieldPath fieldValue with
        | .error e => .error e
        | .ok none =>
          applyRules vd method fieldPath fieldName structFieldName fieldValue rest
        | .ok (some newValue) =>
          applyRules vd method fieldPath fieldName structFieldName newValue rest
      | none => .error (.fieldErr "unknown-transformation" rule fieldName structFieldName "")
    else
      let (ruleName, param) := goCutEq rule
      match lookupFn vd.validations ruleName with
      | some validation =>
        match validation fieldPath fieldValue param with
        | .error e => .error e
        | .ok true =>
          applyRules vd method fieldPath fieldName structFieldName fieldValue rest
        | .ok false => .error (.fieldErr "failed-validation" rule fieldName structFieldName param)
      | none => .error (.fieldErr "unknown-validation" rule fieldName structFieldName param)

/-- The values stored in the output document (interface values in Go):
a raw value, a nested map document (nested struct or map field) or a
sequence (slice / array field). -/
inductive DocValue where
  | prim (v : GoValue)
  | doc (entries : List (String × DocValue))
  | arr (xs : List DocValue)
  deriving Repr

/-- dataMap insertion: the walker assigns dataMap[fieldName] earlier
than the entries of the remaining fields, so a later field with the
same resolved name overwrites it (Go map assignment). -/
def docInsert (entry : Option (String × DocValue)) (d : List (String × DocValue)) :
    List (String × DocValue) :=
  match entry with
  | none => d
  | some (n, dv) => if (d.map Prod.fst).contains n then d else (n, dv) :: d

/-- The work items of the walker: a whole field list (validateFields
loop), one field (one iteration of that loop), one value
(processFinalValue), the elements of a slice from an index on
(processSliceValue) and the entries of a map (processMapValue).  The
mutual recursion of validator.go is rendered as one function over this
sum so that every equation is a definitional reduction. -/
inductive Job where
  | jfields (fs : List GoField) (path : String)
  | jfield (f : GoField) (path : String)
  | jvalue (v : GoValue) (path : String)
  | jslice (xs : List GoValue) (path : String) (i : Nat)
  | jentries (es : List (String × GoValue)) (path : String)

/-- The results of the work items of the walker.  Field lists and single
fields return the document contribution next to the updated record
fields (validator.go mutates the record in place; the model passes the
state explicitly). -/
inductive JobRes where
  | rfields (d : List (String × DocValue)) (fs : List GoField)
  | rfield (entry : Option (String × DocValue)) (f : GoField)
  | rvalue (dv : DocValue) (v : GoValue)
  | rslice (dvs : List DocValue) (xs : List GoValue)
  | rentries (dvs : List (String × DocValue)) (es : List (String × GoValue))
  deriving Repr

/-- validator.go validateFields / processFinalValue /
processStructValue / processMapValue / processSliceValue.  The fuel
argument bounds the recursion depth (the Go recursion is unbounded when
a transformation keeps returning fresh structs); every theorem below
either quantifies over the fuel or uses one large enough for its input.
A non-nil pointer field is dereferenced before rule application.  When
the rules changed the value, the source writes it back into the field
slot with reflect.Set, which panics on an unassignable value - in
particular on a pointer field, whose slot holds the pointer while the
changed value is the transformed pointee; the model renders that crash
as a panicErr.  When the value is unchanged no write-back happens and
nested updates reach a pointer field through the pointer, so the
wrapper is restored around the walked pointee. -/
def walkF (vd : Validator) (opts : validationOpts) : Nat → Job → Except GoErr JobRes
  | 0, _ => .error .outOfFuel
  | fuel + 1, job =>
    match job with
    | .jfields [] _ => .ok (.rfields [] [])
    | .jfields (f :: rest) path =>
      match walkF vd opts fuel (.jfield f path) with
      | .error e => .error e
      | .ok (.rfield entry f') =>
        match walkF vd opts fuel (.jfields rest path) with
        | .error e => .error e
        | .ok (.rfields d fs') => .ok (.rfields (docInsert entry d) (f' :: fs'))
        | .ok _ => .error (.plain "firevault: model invariant")
      | .ok _ => .error (.plain "firevault: model invariant")
    | .jfield (.mk structFieldName tag v) path =>
      if tag = "" ∨ tag = "-" then .ok (.rfield none (.mk structFieldName tag v))
      else
        let rules := parseTag tag
        let fieldName :=
          match rules with
          | r0 :: _ => if r0 ≠ "" then r0 else structFieldName
          | [] => structFieldName
        let fieldPath := getFieldPath path fieldName
        if !isSupported v then
          .error (.plain ("firevault: unsupported field type - " ++ fieldPath))
        else if shouldSkipField v fieldPath rules opts then
          .ok (.rfield none (.mk structFieldName tag v))
        else
          let cleaned := cleanRules rules
          let derefed := match v with | .vptr (some w) => w | _ => v
          match (if opts.skipValidation then .ok derefed
                 else applyRules vd opts.method fieldPath fieldName structFieldName derefed cleaned) with
          | .error e => .error e
          | .ok newValue =>
            if goValueEq newValue derefed then
              match walkF vd opts fuel (.jvalue newValue fieldPath) with
              | .error e => .error e
              | .ok (.rvalue dv v3) =>
                let finalFieldValue :=
                  match v with
                  | .vptr (some _) => GoValue.vptr (some v3)
                  | _ => v3
                .ok (.rfield (some (fieldName, dv)) (.mk structFieldName tag finalFieldValue))
              | .ok _ => .error (.plain "firevault: model invariant")
            else if sameKindG newValue v then
              match walkF vd opts fuel (.jvalue newValue fieldPath) with
              | .error e => .error e
              | .ok (.rvalue dv v3) =>
                .ok (.rfield (some (fieldName, dv)) (.mk structFieldName tag v3))
              | .ok _ => .error (.plain "firevault: model invariant")
            else .error (.panicErr ("reflect.Set: unassignable value - " ++ fieldPath))
    | .jvalue (.vtime t) _ => .ok (.rvalue (.prim (.vtime t)) (.vtime t))
    | .jvalue (.vstruct fs) path =>
      match walkF vd opts fuel (.jfields fs path) with
      | .error e => .error e
      | .ok (.rfields d fs') => .ok (.rvalue (.doc d) (.vstruct fs'))
      | .ok _ => .error (.plain "firevault: model invariant")
    | .jvalue (.vmap none) _ => .ok (.rvalue (.doc []) (.vmap none))
    | .jvalue (.vmap (some es)) path =>
      match walkF vd opts fuel (.jentries es path) with
      | .error e => .error e
      | .ok (.rentries dvs es') => .ok (.rvalue (.doc dvs) (.vmap (some es')))
      | .ok _ => .error (.plain "firevault: model invariant")
    | .jvalue (.vslice none) _ => .ok (.rvalue (.arr []) (.vslice none))
    | .jvalue (.vslice (some xs)) path =>
      match walkF vd opts fuel (.jslice xs path 0) with
      | .error e => .error e
      | .ok (.rslice dvs xs') => .ok (.rvalue (.arr dvs) (.vslice (some xs')))
      | .ok _ => .error (.plain "firevault: model invariant")
    | .jvalue v _ => .ok (.rvalue (.prim v) v)
    | .jslice [] _ _ => .ok (.rslice [] [])
    | .jslice (x :: xs) path i =>
      match walkF vd opts fuel (.jvalue x (path ++ "[" ++ toString i ++ "]")) with
      | .error e => .error e
      | .ok (.rvalue dv x') =>
        match walkF vd opts fuel (.jslice xs path (i + 1)) with
        | .error e => .error e
        | .ok (.rslice dvs xs') => .ok (.rslice (dv :: dvs) (x' :: xs'))
        | .ok _ => .error (.plain "firevault: model invariant")
      | .ok _ => .error (.plain "firevault: model invariant")
    | .jentries [] _ => .ok (.rentries [] [])
    | .jentries ((k, x) :: es) path =>
      match walkF vd opts fuel (.jvalue x (path ++ "." ++ k)) with
      | .error e => .error e
      | .ok (.rvalue dv x') =>
        match walkF vd opts fuel (.jentries es path) with
        | .error e => .error e
        | .ok (.rentries dvs es') => .ok (.rentries ((k, dv) :: dvs) ((k, x') :: es'))
        | .ok _ => .error (.plain "firevault: model invariant")
      | .ok _ => .error (.plain "firevault: model invariant")

/-- validator.go validateFields, as the caller sees it: the output
document next to the updated record fields. -/
def validateFields
    (vd : Validator) (fuel : Nat) (fs : List GoField) (path : String)
    (opts : validationOpts) : Except GoErr (List (String × DocValue) × List GoField) :=
  match walkF vd opts fuel (.jfields fs path) with
  | .error e => .error e
  | .ok (.rfields d fs') => .ok (d, fs')
  | .ok _ => .error (.plain "firevault: model invariant")

/-- validator.go validate: the top entry point rejects everything but a
pointer to a struct, then walks the fields of the struct with the empty root
path. -/
def validatorValidate
    (vd : Validator) (fuel : Nat) (data : GoValue) (opts : validationOpts) :
    Except GoErr (List (String × DocValue) × List GoField) :=
  match data with
  | .vptr (some (.vstruct fs)) => validateFields vd fuel fs "" opts
  | _ => .error (.plain "firevault: data must be a pointer to a struct")

/-- collection.go getValidationOpts, inner loop: a FieldPath (list of
segments) is rendered with fmt.Sprintf("%s.%s", fieldPath, segment)
starting from the empty string, so the result always begins with a
dot. -/
def fieldPathToString (fp : List String) : String :=
  fp.foldl (fun fieldPath seg => fieldPath ++ "." ++ seg) ""

/-- collection.go getValidationOpts: merge caller-supplied
ValidationOptions into the per-method defaults.  The conditions follow the
source: skipValidation is overwritten when it differs; for validate
and update methods, passing SkipRequired = false forces skipRequired to
true; for create, passing SkipRequired = true sets it. -/
def getValidationOpts
    (method : MethodType) (curOpts : validationOpts)
    (passedOpts : ValidationOptions) : validationOpts :=
  let curOpts :=
    if passedOpts.SkipValidation = !curOpts.skipValidation then
      { curOpts with skipValidation := passedOpts.SkipValidation }
    else curOpts
  let curOpts :=
    if method = .mvalidate ∨ method = .mupdate then
      if !passedOpts.SkipRequired then
        { curOpts with skipRequired := !passedOpts.SkipRequired }
      else curOpts
    else
      if passedOpts.SkipRequired then
        { curOpts with skipRequired := passedOpts.SkipRequired }
      else curOpts
  if passedOpts.AllowEmptyFields.length > 0 then
    { curOpts with
        emptyFieldsAllowed :=
          curOpts.emptyFieldsAllowed ++ passedOpts.AllowEmptyFields.map fieldPathToString }
  else curOpts

/-- The default options of Collection.Validate: the source literal is
validationOpts{false, true, true, make([]string, 0)}, i.e. the validate
method with skipValidation false, skipRequired true and an empty
allow-list. -/
def defaultValidateOpts : validationOpts :=
  { method := .mvalidate, skipValidation := false, skipRequired := true,
    emptyFieldsAllowed := [] }

/-- The default options of Collection.Create: the source literal is
validationOpts{false, false, false, make([]string, 0)}. -/
def defaultCreateOpts : validationOpts :=
  { method := .mcreate, skipValidation := false, skipRequired := false,
    emptyFieldsAllowed := [] }

/-- The default options of Collection.UpdateById: the source literal is
validationOpts{false, true, true, make([]string, 0)}. -/
def defaultUpdateOpts : validationOpts :=
  { method := .mupdate, skipValidation := false, skipRequired := true,
    emptyFieldsAllowed := [] }

/-- collection.go Collection.Validate, up to the validator call (the
store is never touched by Validate). -/
def collectionValidate
    (vd : Validator) (fuel : Nat) (data : GoValue)
    (opts : Option ValidationOptions) :
    Except GoErr (List (String × DocValue) × List GoField) :=
  let options :=
    match opts with
    | some passed => getValidationOpts .mvalidate defaultValidateOpts passed
    | none => defaultValidateOpts
  validatorValidate vd fuel data options

/-- The validation stage of collection.go Collection.Create (document
creation in the store is out of scope). -/
def collectionCreateValidation
    (vd : Validator) (fuel : Nat) (data : GoValue)
    (opts : Option ValidationOptions) :
    Except GoErr (List (String × DocValue) × List GoField) :=
  let options :=
    match opts with
    | some passed => getValidationOpts .mcreate defaultCreateOpts passed
    | none => defaultCreateOpts
  validatorValidate vd fuel data options

/-- The validation stage of collection.go Collection.UpdateById
(merge-field handling and the store write are out of scope). -/
def collectionUpdateValidation
    (vd : Validator) (fuel : Nat) (data : GoValue)
    (opts : Option ValidationOptions) :
    Except GoErr (List (String × DocValue) × List GoField) :=
  let options :=
    match opts with
    | some passed => getValidationOpts .mupdate defaultUpdateOpts passed
    | none => defaultUpdateOpts
  validatorValidate vd fuel data options

/-- Modelled from the spec, for comparison with the parseTag of the source
only: "given a raw tag string, split on ',', trim whitespace from each
segment, drop empty segments except preserve position 0 (the name slot)
even if empty". -/
def parseTagSpec (tag : String) : List String :=
  match (goSplitOn ',' tag).map goTrim with
  | [] => []
  | r0 :: rest => r0 :: rest.filter (fun r => r ≠ "")

/-- parseTagLoop is the elementwise trim of its input. -/
theorem parseTagLoop_eq_map (l : List String) : parseTagLoop l = l.map goTrim := by
  induction l with
  | nil => rfl
  | cons r rest ih => simp [parseTagLoop, ih]

/-- C1: on an empty value, a token equal to the method-scoped required
variant registered by the built-ins (required_create under the create
method) is skipped by applyRules instead of being dispatched, because
the source computes the method tag as "required" + method without the
underscore ("requiredcreate"); the bare token required is dispatched
and fails, and the registry does hold a validator under
"required_create" which validateRequired would fail on the empty value
had it been dispatched. -/
theorem c1_required_create_skipped_on_empty :
    applyRules newValidator .mcreate "name" "name" "Name" (.vstr "") ["required_create"] =
      .ok (.vstr "")
    ∧ applyRules newValidator .mcreate "name" "name" "Name" (.vstr "") ["required"] =
      .error (.fieldErr "failed-validation" "required" "name" "Name" "")
    ∧ (lookupFn newValidator.validations "required_create").isSome = true
    ∧ validateRequired "name" (.vstr "") "" = .ok false := by
  exact ⟨rfl, rfl, rfl, rfl⟩

/-- C2: under the validate and update methods with default options the
collection layer sets skipRequired to true, yet the validator never
consults that flag, so an empty field tagged required still fails
validation (the claim and the option documentation say it is
skipped); under create the same input fails as the claim states. -/
theorem c2_required_fires_despite_skip_flag :
    defaultValidateOpts.skipRequired = true
    ∧ defaultUpdateOpts.skipRequired = true
    ∧ collectionValidate newValidator 10
        (.vptr (some (.vstruct [.mk "Name" "name,required" (.vstr "")]))) none =
      .error (.fieldErr "failed-validation" "required" "name" "Name" "")
    ∧ collectionUpdateValidation newValidator 10
        (.vptr (some (.vstruct [.mk "Name" "name,required" (.vstr "")]))) none =
      .error (.fieldErr "failed-validation" "required" "name" "Name" "")
    ∧ collectionCreateValidation newValidator 10
        (.vptr (some (.vstruct [.mk "Name" "name,required" (.vstr "")]))) none =
      .error (.fieldErr "failed-validation" "required" "name" "Name" "") := by
  exact ⟨rfl, rfl, rfl, rfl, rfl⟩

/-- C3: for a time-like field with a well-formed time parameter, the
max rule fails on an instant at or before the parameter (2020 and the
boundary 2021 against parameter year 2021) and passes strictly after
it, and the min rule fails at or after the parameter and passes
strictly before it - the opposite of the claimed inclusive bound
directions, because the source returns t.After(max) and t.Before(min)
as the pass verdicts. -/
theorem c3_time_bounds_inverted :
    validateMax "p" (.vtime 2020) "2006|2021" = .ok false
    ∧ validateMax "p" (.vtime 2021) "2006|2021" = .ok false
    ∧ validateMax "p" (.vtime 2022) "2006|2021" = .ok true
    ∧ validateMin "p" (.vtime 2022) "2006|2021" = .ok false
    ∧ validateMin "p" (.vtime 2021) "2006|2021" = .ok false
    ∧ validateMin "p" (.vtime 2020) "2006|2021" = .ok true := by
  exact ⟨rfl, rfl, rfl, rfl, rfl, rfl⟩

/-- C4: the collection layer renders the allow-list entry of the caller
["name"] as the string ".name" (the Sprintf loop starts from the empty
string, leaving a leading dot), while the walker path for the field
is "name"; the allowance therefore never matches and the empty
omitempty field is skipped and absent from the output document even
though its path was explicitly allow-listed. -/
theorem c4_allow_list_entry_modified :
    (getValidationOpts .mvalidate defaultValidateOpts
        ⟨false, false, [["name"]]⟩).emptyFieldsAllowed = [".name"]
    ∧ collectionValidate newValidator 10
        (.vptr (some (.vstruct [.mk "Name" "name,omitempty" (.vstr "")])))
        (some ⟨false, false, [["name"]]⟩) =
      .ok ([], [.mk "Name" "name,omitempty" (.vstr "")]) := by
  exact ⟨rfl, rfl⟩

/-- C5, counterexample: on the tag "a,,b" the parser keeps the empty
segment at position 1, so its output differs from the contract of the spec
(which drops empty segments outside position 0). -/
theorem c5_counterexample_empty_segment_kept :
    parseTag "a,,b" = ["a", "", "b"] ∧ parseTagSpec "a,,b" = ["a", "b"] ∧
      parseTag "a,,b" ≠ parseTagSpec "a,,b" := by
  exact ⟨rfl, rfl, by decide⟩

/-- C5, amended: the tag parser returns exactly the segments obtained
by splitting on ',' with whitespace trimmed from each segment; no
segment is dropped at any position, empty or not (position 0 is
preserved like every other position). -/
theorem c5_parse_tag_trims_and_keeps_all_segments (tag : String) :
    parseTag tag = (goSplitOn ',' tag).map goTrim := by
  unfold parseTag
  exact parseTagLoop_eq_map (goSplitOn ',' tag)

/-- A successful field-list walk always carries an rfields result. -/
theorem walkFieldsShape (vd : Validator) (opts : validationOpts) :
    ∀ (fuel : Nat) (fs : List GoField) (path : String) (r : JobRes),
      walkF vd opts fuel (.jfields fs path) = .ok r →
      ∃ d fs', r = .rfields d fs' := by
  intro fuel
  induction fuel with
  | zero =>
    intro fs path r h
    simp [walkF] at h
  | succ fuel ih =>
    intro fs path r h
    match fs with
    | [] =>
      simp only [walkF] at h
      exact ⟨[], [], (Except.ok.injEq _ _).mp h.symm⟩
    | f :: rest =>
      simp only [walkF] at h
      cases hh : walkF vd opts fuel (.jfield f path) with
      | error e1 => rw [hh] at h; cases h
      | ok r1 =>
        rw [hh] at h
        cases r1 with
        | rfield entry f' =>
          cases hh2 : walkF vd opts fuel (.jfields rest path) with
          | error e2 => rw [hh2] at h; cases h
          | ok r2 =>
            rw [hh2] at h
            obtain ⟨d, fs', rfl⟩ := ih rest path r2 hh2
            exact ⟨_, _, ((Except.ok.injEq _ _).mp h).symm⟩
        | rfields d fs' => cases h
        | rvalue dv v => cases h
        | rslice dvs xs => cases h
        | rentries dvs es => cases h

/-- A field-list walk that fails keeps failing with the same error when
more fields follow: the fields after the first failure are never
reached. -/
theorem walkFieldsAppendErr (vd : Validator) (opts : validationOpts) :
    ∀ (fuel : Nat) (fs gs : List GoField) (path : String) (e : GoErr),
      walkF vd opts fuel (.jfields fs path) = .error e →
      walkF vd opts fuel (.jfields (fs ++ gs) path) = .error e := by
  intro fuel
  induction fuel with
  | zero =>
    intro fs gs path e h
    simp only [walkF] at h ⊢
    exact h
  | succ fuel ih =>
    intro fs gs path e h
    match fs with
    | [] => simp only [walkF] at h; cases h
    | f :: rest =>
      simp only [walkF, List.cons_append] at h ⊢
      cases hh : walkF vd opts fuel (.jfield f path) with
      | error e1 =>
        rw [hh] at h
        dsimp only at h ⊢
        exact h
      | ok r1 =>
        rw [hh] at h
        cases r1 with
        | rfield entry f' =>
          dsimp only at h ⊢
          cases hh2 : walkF vd opts fuel (.jfields rest path) with
          | error e2 =>
            rw [hh2] at h
            rw [ih rest gs path e2 hh2]
            dsimp only at h ⊢
            exact h
          | ok r2 =>
            rw [hh2] at h
            obtain ⟨d, fs', rfl⟩ := walkFieldsShape vd opts fuel rest path r2 hh2
            dsimp only at h
            cases h
        | rfields d fs' => dsimp only at h ⊢; exact h
        | rvalue dv v => dsimp only at h ⊢; exact h
        | rslice dvs xs => dsimp only at h ⊢; exact h
        | rentries dvs es => dsimp only at h ⊢; exact h

/-- applyRules that fails keeps failing with the same error when more
rule tokens follow: the tokens after the first failure are never
dispatched. -/
theorem applyRulesAppendErr (vd : Validator) (m : MethodType)
    (fieldPath fieldName structFieldName : String) :
    ∀ (rs ss : List String) (v : GoValue) (e : GoErr),
      applyRules vd m fieldPath fieldName structFieldName v rs = .error e →
      applyRules vd m fieldPath fieldName structFieldName v (rs ++ ss) = .error e := by
  intro rs
  induction rs with
  | nil => intro ss v e h; cases h
  | cons rule rest ih =>
    intro ss v e h
    simp only [applyRules, List.cons_append] at h ⊢
    split at h
    next hc =>
      rw [if_pos hc]
      exact ih ss v e h
    next hc =>
      rw [if_neg hc]
      by_cases htr : goHasPre "transform=" rule = true
      · rw [if_pos htr] at h ⊢
        cases hl : lookupFn vd.transformations (goDropPre "transform=" rule) with
        | none =>
          rw [hl] at h
          dsimp only at h ⊢
          exact h
        | some tf =>
          rw [hl] at h
          dsimp only at h ⊢
          cases ht : tf fieldPath v with
          | error e1 =>
            rw [ht] at h
            dsimp only at h ⊢
            exact h
          | ok newValue =>
            rw [ht] at h
            cases newValue with
            | none =>
              dsimp only at h ⊢
              exact ih ss v e h
            | some nv =>
              dsimp only at h ⊢
              exact ih ss nv e h
      · rw [if_neg htr] at h ⊢
        cases hl : lookupFn vd.validations (goCutEq rule).1 with
        | none =>
          rw [hl] at h
          dsimp only at h ⊢
          exact h
        | some validation =>
          rw [hl] at h
          dsimp only at h ⊢
          cases hv : validation fieldPath v (goCutEq rule).2 with
          | error e1 =>
            rw [hv] at h
            dsimp only at h ⊢
            exact h
          | ok verdict =>
            rw [hv] at h
            cases verdict with
            | true =>
              dsimp only at h ⊢
              exact ih ss v e h
            | false =>
              dsimp only at h ⊢
              exact h

/-- C6: the top-level validate call yields either an output document or
exactly one error (never both, never a partial document); a field list
that fails keeps failing with the very same error when further fields
follow (the fields after the first failure are never evaluated), and a
rule list that fails keeps failing with the very same error when
further rule tokens follow (the tokens after the first failing rule are
never dispatched).  The field-list property applies at every nesting
level, since nested structs, maps and slices are processed by the same
walker with errors propagated unchanged. -/
theorem c6_fail_fast_single_error :
    (∀ (vd : Validator) (fuel : Nat) (data : GoValue) (opts : validationOpts),
      (∃ d, validatorValidate vd fuel data opts = .ok d) ∨
      (∃ e, validatorValidate vd fuel data opts = .error e))
    ∧ (∀ (vd : Validator) (opts : validationOpts) (fuel : Nat) (fs gs : List GoField)
        (path : String) (e : GoErr),
        validateFields vd fuel fs path opts = .error e →
        validateFields vd fuel (fs ++ gs) path opts = .error e)
    ∧ (∀ (vd : Validator) (m : MethodType) (fieldPath fieldName structFieldName : String)
        (v : GoValue) (rs ss : List String) (e : GoErr),
        applyRules vd m fieldPath fieldName structFieldName v rs = .error e →
        applyRules vd m fieldPath fieldName structFieldName v (rs ++ ss) = .error e) := by
  refine ⟨?_, ?_, ?_⟩
  · intro vd fuel data opts
    cases hres : validatorValidate vd fuel data opts with
    | ok d => exact .inl ⟨d, rfl⟩
    | error e => exact .inr ⟨e, rfl⟩
  · intro vd opts fuel fs gs path e h
    unfold validateFields at h ⊢
    cases hw : walkF vd opts fuel (.jfields fs path) with
    | error e1 =>
      rw [hw] at h
      dsimp only at h
      rw [walkFieldsAppendErr vd opts fuel fs gs path e1 hw]
      dsimp only
      exact h
    | ok r =>
      rw [hw] at h
      obtain ⟨d, fs', rfl⟩ := walkFieldsShape vd opts fuel fs path r hw
      dsimp only at h
      cases h
  · intro vd m fieldPath fieldName structFieldName v rs ss e h
    exact applyRulesAppendErr vd m fieldPath fieldName structFieldName rs ss v e h

/-- C6 witness: a concrete two-field record whose first field fails on
the required rule; the call on the extended field list returns the same
single error, and a failing rule list stays failing when a further
token is appended. -/
theorem c6_fail_fast_single_error_witness :
    validateFields newValidator 10 [.mk "Name" "name,required" (.vstr "")] ""
        defaultCreateOpts =
      .error (.fieldErr "failed-validation" "required" "name" "Name" "")
    ∧ validateFields newValidator 10
        ([.mk "Name" "name,required" (.vstr "")] ++ [.mk "Age" "age,min=1" (.vint 5)]) ""
        defaultCreateOpts =
      .error (.fieldErr "failed-validation" "required" "name" "Name" "")
    ∧ applyRules newValidator .mcreate "p" "n" "N" (.vstr "x") (["boom"] ++ ["min=1"]) =
      .error (.fieldErr "unknown-validation" "boom" "n" "N" "") := by
  refine ⟨rfl, ?_, ?_⟩
  · exact c6_fail_fast_single_error.2.1 newValidator defaultCreateOpts 10
      [.mk "Name" "name,required" (.vstr "")] [.mk "Age" "age,min=1" (.vint 5)] ""
      (.fieldErr "failed-validation" "required" "name" "Name" "") rfl
  · exact c6_fail_fast_single_error.2.2 newValidator .mcreate "p" "n" "N" (.vstr "x")
      ["boom"] ["min=1"] (.fieldErr "unknown-validation" "boom" "n" "N" "") rfl

/-- The empty parameter never parses as an integer. -/
theorem asInt_empty_ne_ok (n : Int) : asInt "" ≠ .ok n := by
  intro h
  cases h

/-- C8: for a string or slice field whose numeric parameter parses to
n, the max rule passes exactly when the length is at most n and the min
rule passes exactly when the length is at least n (string length is the
Go byte length); in particular a string of exactly length n passes both
rules. -/
theorem c8_min_max_length_inclusive
    (path param : String) (n : Int) (s : String) (xs : List GoValue)
    (h : asInt param = .ok n) :
    (validateMax path (.vstr s) param = .ok true ↔ (s.utf8ByteSize : Int) ≤ n)
    ∧ (validateMin path (.vstr s) param = .ok true ↔ n ≤ (s.utf8ByteSize : Int))
    ∧ (validateMax path (.vslice (some xs)) param = .ok true ↔ (xs.length : Int) ≤ n)
    ∧ (validateMin path (.vslice (some xs)) param = .ok true ↔ n ≤ (xs.length : Int))
    ∧ ((s.utf8ByteSize : Int) = n →
        validateMax path (.vstr s) param = .ok true ∧
          validateMin path (.vstr s) param = .ok true) := by
  have hne : ¬param = "" := by
    intro he
    rw [he] at h
    exact asInt_empty_ne_ok n h
  have hmax : validateMax path (.vstr s) param = .ok (decide ((s.utf8ByteSize : Int) ≤ n)) := by
    simp only [validateMax, if_neg hne, goLen, h]
    rfl
  have hmin : validateMin path (.vstr s) param = .ok (decide (n ≤ (s.utf8ByteSize : Int))) := by
    simp only [validateMin, if_neg hne, goLen, h]
    rfl
  have hmaxs : validateMax path (.vslice (some xs)) param =
      .ok (decide ((xs.length : Int) ≤ n)) := by
    simp only [validateMax, if_neg hne, goLen, h]
    rfl
  have hmins : validateMin path (.vslice (some xs)) param =
      .ok (decide (n ≤ (xs.length : Int))) := by
    simp only [validateMin, if_neg hne, goLen, h]
    rfl
  refine ⟨?_, ?_, ?_, ?_, ?_⟩
  · rw [hmax]; simp
  · rw [hmin]; simp
  · rw [hmaxs]; simp
  · rw [hmins]; simp
  · intro heq
    rw [hmax, hmin, heq]
    simp

/-- C8 witness: a three-byte string with parameter 3 passes both min=3
and max=3. -/
theorem c8_min_max_length_inclusive_witness :
    validateMax "p" (.vstr "abc") "3" = .ok true ∧
      validateMin "p" (.vstr "abc") "3" = .ok true :=
  (c8_min_max_length_inclusive "p" "3" 3 "abc" [] rfl).2.2.2.2 (by decide)

/-- Pointer-kind test on a value. -/
def isPtrKind : GoValue → Bool
  | .vptr _ => true
  | _ => false

/-- Kind test for the values processFinalValue stores as raw values
(everything that is not a struct, map or slice). -/
def goPlainKind : GoValue → Bool
  | .vstruct _ => false
  | .vmap _ => false
  | .vslice _ => false
  | .vtime _ => false
  | _ => true

/-- The pointer dereference of the walker leaves a non-pointer value
unchanged. -/
theorem deref_of_not_ptr (v : GoValue) :
    isPtrKind v = false →
    (match v with | .vptr (some w) => w | _ => v) = v := by
  intro h
  cases v <;> simp [isPtrKind] at h ⊢

/-- The write-back wrapper of the walker restoration is the identity on
non-pointer fields. -/
theorem writeback_of_not_ptr (v v3 : GoValue) :
    isPtrKind v = false →
    (match v with | .vptr (some _) => GoValue.vptr (some v3) | _ => v3) = v3 := by
  intro h
  cases v <;> simp [isPtrKind] at h ⊢

/-- processFinalValue on a plain kind stores the raw value and leaves
it unchanged. -/
theorem walk_jvalue_plain (vd : Validator) (opts : validationOpts)
    (fuel : Nat) (v : GoValue) (path : String) (h : goPlainKind v = true) :
    walkF vd opts (fuel + 1) (.jvalue v path) = .ok (.rvalue (.prim v) v) := by
  cases v <;> simp [goPlainKind] at h ⊢ <;> rfl

/-- processFinalValue never recurses on a nil pointer and stores the
nil pointer itself. -/
theorem walk_jvalue_nil_ptr (vd : Validator) (opts : validationOpts)
    (fuel : Nat) (path : String) :
    walkF vd opts (fuel + 1) (.jvalue (.vptr none) path) =
      .ok (.rvalue (.prim (.vptr none)) (.vptr none)) := rfl

/-- One unfolding of the walker on an empty field list. -/
theorem walk_jfields_nil (vd : Validator) (opts : validationOpts)
    (fuel : Nat) (path : String) :
    walkF vd opts (fuel + 1) (.jfields [] path) = .ok (.rfields [] []) := rfl

/-- One unfolding of the walker on a field-list cons. -/
theorem walk_jfields_cons (vd : Validator) (opts : validationOpts)
    (fuel : Nat) (f : GoField) (rest : List GoField) (path : String) :
    walkF vd opts (fuel + 1) (.jfields (f :: rest) path) =
      match walkF vd opts fuel (.jfield f path) with
      | .error e => .error e
      | .ok (.rfield entry f') =>
        match walkF vd opts fuel (.jfields rest path) with
        | .error e => .error e
        | .ok (.rfields d fs') => .ok (.rfields (docInsert entry d) (f' :: fs'))
        | .ok _ => .error (.plain "firevault: model invariant")
      | .ok _ => .error (.plain "firevault: model invariant") := rfl

/-- One unfolding of the walker on a single field, leaving the nested
processFinalValue call folded. -/
theorem walk_jfield_step (vd : Validator) (opts : validationOpts) (fuel : Nat)
    (structFieldName tag : String) (v : GoValue) (path : String) :
    walkF vd opts (fuel + 1) (.jfield (.mk structFieldName tag v) path) =
      (if tag = "" ∨ tag = "-" then .ok (.rfield none (.mk structFieldName tag v))
       else
         let rules := parseTag tag
         let fieldName :=
           match rules with
           | r0 :: _ => if r0 ≠ "" then r0 else structFieldName
           | [] => structFieldName
         let fieldPath := getFieldPath path fieldName
         if !isSupported v then
           .error (.plain ("firevault: unsupported field type - " ++ fieldPath))
         else if shouldSkipField v fieldPath rules opts then
           .ok (.rfield none (.mk structFieldName tag v))
         else
           let cleaned := cleanRules rules
           let derefed := match v with | .vptr (some w) => w | _ => v
           match (if opts.skipValidation then .ok derefed
                  else applyRules vd opts.method fieldPath fieldName structFieldName
                    derefed cleaned) with
           | .error e => .error e
           | .ok newValue =>
             if goValueEq newValue derefed then
               match walkF vd opts fuel (.jvalue newValue fieldPath) with
               | .error e => .error e
               | .ok (.rvalue dv v3) =>
                 let finalFieldValue :=
                   match v with
                   | .vptr (some _) => GoValue.vptr (some v3)
                   | _ => v3
                 .ok (.rfield (some (fieldName, dv)) (.mk structFieldName tag finalFieldValue))
               | .ok _ => .error (.plain "firevault: model invariant")
             else if sameKindG newValue v then
               match walkF vd opts fuel (.jvalue newValue fieldPath) with
               | .error e => .error e
               | .ok (.rvalue dv v3) =>
                 .ok (.rfield (some (fieldName, dv)) (.mk structFieldName tag v3))
               | .ok _ => .error (.plain "firevault: model invariant")
             else .error (.panicErr ("reflect.Set: unassignable value - " ++ fieldPath))) := rfl

/-- Every rule kept by cleanRules appears among the parsed rules. -/
theorem mem_cleanRulesLoop :
    ∀ (idx : Nat) (rs : List String) (r : String), r ∈ cleanRulesLoop idx rs → r ∈ rs := by
  intro idx rs
  induction rs generalizing idx with
  | nil => intro r h; cases h
  | cons rule rest ih =>
    intro r h
    simp only [cleanRulesLoop] at h
    split at h
    · cases h with
      | head => exact List.mem_cons_self _ _
      | tail _ h => exact List.mem_cons_of_mem _ (ih (idx + 1) r h)
    · exact List.mem_cons_of_mem _ (ih (idx + 1) r h)

/-- Every rule kept by cleanRules appears among the parsed rules. -/
theorem mem_cleanRules (rs : List String) (r : String) (h : r ∈ cleanRules rs) : r ∈ rs :=
  mem_cleanRulesLoop 0 rs r h

/-- applyRules skips every token on an empty value when no token is
required-class (in the sense of the source: the bare token required or
"required" + method). -/
theorem applyRules_skips_all_on_empty
    (vd : Validator) (m : MethodType) (fieldPath fieldName structFieldName : String) :
    ∀ (rs : List String) (v : GoValue),
      hasValue v = false →
      (∀ r ∈ rs, r ≠ "required" ∧ r ≠ "required" ++ methodStr m) →
      applyRules vd m fieldPath fieldName structFieldName v rs = .ok v := by
  intro rs
  induction rs with
  | nil => intro v _ _; rfl
  | cons rule rest ih =>
    intro v hv hreq
    obtain ⟨h1, h2⟩ := hreq rule (List.mem_cons_self _ _)
    simp only [applyRules]
    rw [if_pos (by simp [hv, h1, h2])]
    exact ih v hv fun r hr => hreq r (List.mem_cons_of_mem _ hr)

/-- C10: a tagged field holding a nil pointer, with no omission
directive recognised for the method of the call, no required-class token
(in the sense of the source) among its rules, and validation not skipped, is
never dereferenced, has every rule skipped, and contributes its output
name mapped to the nil pointer value itself to the output document,
with the record field untouched. -/
theorem c10_nil_pointer_in_document
    (vd : Validator) (opts : validationOpts) (fuel : Nat)
    (sn tag path r0 : String) (rtail : List String)
    (hskipv : opts.skipValidation = false)
    (hparse : parseTag tag = r0 :: rtail)
    (hnotag : ¬(tag = "" ∨ tag = "-"))
    (homit1 : (r0 :: rtail).contains "omitempty" = false)
    (homit2 : (r0 :: rtail).contains ("omitempty_" ++ methodStr opts.method) = false)
    (hreq : ∀ r ∈ r0 :: rtail, r ≠ "required" ∧ r ≠ "required" ++ methodStr opts.method) :
    validateFields vd (fuel + 3) [.mk sn tag (.vptr none)] path opts =
      .ok ([(if r0 ≠ "" then r0 else sn, .prim (.vptr none))],
        [.mk sn tag (.vptr none)]) := by
  have hss : shouldSkipField (.vptr none)
      (getFieldPath path (if r0 ≠ "" then r0 else sn)) (r0 :: rtail) opts = false := by
    simp only [shouldSkipField]
    rw [homit1, homit2]
    simp
  have happ : applyRules vd opts.method
      (getFieldPath path (if r0 ≠ "" then r0 else sn)) (if r0 ≠ "" then r0 else sn) sn
      (.vptr none) (cleanRules (r0 :: rtail)) = .ok (.vptr none) :=
    applyRules_skips_all_on_empty vd opts.method _ _ _ (cleanRules (r0 :: rtail))
      (.vptr none) rfl fun r hr => hreq r (mem_cleanRules _ r hr)
  have hfield : walkF vd opts (fuel + 2) (.jfield (.mk sn tag (.vptr none)) path) =
      .ok (.rfield (some (if r0 ≠ "" then r0 else sn, .prim (.vptr none)))
        (.mk sn tag (.vptr none))) := by
    simp only [walkF]
    rw [if_neg hnotag]
    simp only [hparse]
    simp only [hss, hskipv, happ]
    rfl
  have e3 : fuel + 3 = (fuel + 2) + 1 := rfl
  have e2 : fuel + 2 = (fuel + 1) + 1 := rfl
  unfold validateFields
  rw [e3, walk_jfields_cons, hfield]
  rw [e2, walk_jfields_nil]
  rfl

/-- A character list is a prefix of itself followed by anything. -/
theorem list_isPrefixOf_append (l t : List Char) : l.isPrefixOf (l ++ t) = true := by
  induction l with
  | nil => simp [List.isPrefixOf]
  | cons c cs ih => simp [List.isPrefixOf, ih]

/-- goHasPre recognises a literal prefix. -/
theorem goHasPre_append (p s : String) : goHasPre p (p ++ s) = true := by
  unfold goHasPre
  have hd : (p ++ s).data = p.data ++ s.data := rfl
  rw [hd]
  exact list_isPrefixOf_append p.data s.data

/-- goDropPre removes a literal prefix. -/
theorem goDropPre_append (p s : String) : goDropPre p (p ++ s) = s := by
  unfold goDropPre
  rw [goHasPre_append]
  have hd : (p ++ s).data = p.data ++ s.data := rfl
  simp only [if_true, hd, List.drop_left]

/-- C7, amended: a transform token whose registered transformation
returns a non-null value without error replaces the working value for
all later tokens of the same rule list (first conjunct, any
continuation rest), and on a single-field record holding a non-pointer
value, when the transformed value has the kind of the field (so that
the reflect.Set write-back is assignable) the transformed value is
written back into the record field and the output document maps the
output name of the field to it (second conjunct; the hypotheses also
restrict to a non-empty value, since an empty value never reaches the
transformation, and to a transformed value of plain kind, which is
stored raw).  For a non-nil pointer field, or a transformed value of a
different kind, the write-back panics instead - see the
counterexample. -/
theorem c7_transform_threads_value :
    (∀ (vd : Validator) (m : MethodType) (fieldPath fieldName structFieldName tn : String)
      (tf : TransformationFn) (v v' : GoValue) (rest : List String),
      lookupFn vd.transformations tn = some tf →
      hasValue v = true →
      tf fieldPath v = .ok (some v') →
      applyRules vd m fieldPath fieldName structFieldName v (("transform=" ++ tn) :: rest) =
        applyRules vd m fieldPath fieldName structFieldName v' rest)
    ∧ (∀ (vd : Validator) (opts : validationOpts) (fuel : Nat)
      (sn tag nm tn path : String) (tf : TransformationFn) (v v' : GoValue),
      parseTag tag = [nm, "transform=" ++ tn] →
      ¬(tag = "" ∨ tag = "-") →
      cleanRules [nm, "transform=" ++ tn] = ["transform=" ++ tn] →
      opts.skipValidation = false →
      isSupported v = true →
      hasValue v = true →
      isPtrKind v = false →
      lookupFn vd.transformations tn = some tf →
      tf (getFieldPath path (if nm ≠ "" then nm else sn)) v = .ok (some v') →
      goPlainKind v' = true →
      sameKindG v' v = true →
      validateFields vd (fuel + 3) [.mk sn tag v] path opts =
        .ok ([(if nm ≠ "" then nm else sn, .prim v')], [.mk sn tag v'])) := by
  constructor
  · intro vd m fieldPath fieldName structFieldName tn tf v v' rest hlk hv htf
    simp only [applyRules]
    rw [if_neg (by simp [hv])]
    rw [if_pos (goHasPre_append "transform=" tn)]
    rw [goDropPre_append "transform=" tn, hlk]
    dsimp only
    rw [htf]
  · intro vd opts fuel sn tag nm tn path tf v v' hparse hnotag hclean hskipv hsupp hv
      hptr hlk htf hplain hsame
    have hss : shouldSkipField v (getFieldPath path (if nm ≠ "" then nm else sn))
        [nm, "transform=" ++ tn] opts = false := by
      simp [shouldSkipField, hv]
    have happ : applyRules vd opts.method
        (getFieldPath path (if nm ≠ "" then nm else sn)) (if nm ≠ "" then nm else sn) sn
        v ["transform=" ++ tn] = .ok v' := by
      simp only [applyRules]
      rw [if_neg (by simp [hv])]
      rw [if_pos (goHasPre_append "transform=" tn)]
      rw [goDropPre_append "transform=" tn, hlk]
      dsimp only
      rw [htf]
    have hderef := deref_of_not_ptr v hptr
    have hfield : walkF vd opts (fuel + 2) (.jfield (.mk sn tag v) path) =
        .ok (.rfield (some (if nm ≠ "" then nm else sn, .prim v'))
          (.mk sn tag v')) := by
      have e2 : fuel + 2 = (fuel + 1) + 1 := rfl
      rw [e2, walk_jfield_step]
      rw [if_neg hnotag]
      simp only [hparse]
      simp only [hsupp, Bool.not_true, hss, hskipv, if_neg Bool.false_ne_true]
      rw [hderef, hclean]
      rw [happ]
      dsimp only
      by_cases hveq : goValueEq v' v = true
      · rw [if_pos hveq]
        rw [walk_jvalue_plain vd opts fuel v'
          (getFieldPath path (if nm ≠ "" then nm else sn)) hplain]
        dsimp only
        rw [writeback_of_not_ptr v v' hptr]
      · rw [if_neg hveq, if_pos hsame]
        rw [walk_jvalue_plain vd opts fuel v'
          (getFieldPath path (if nm ≠ "" then nm else sn)) hplain]
    have e3 : fuel + 3 = (fuel + 2) + 1 := rfl
    unfold validateFields
    rw [e3, walk_jfields_cons, hfield, walk_jfields_nil]
    rfl

/-- ASCII upper-casing of one character (model of the Go
strings.ToUpper character map on ASCII input). -/
def goToUpperChar (c : Char) : Char :=
  if 'a' ≤ c ∧ c ≤ 'z' then Char.ofNat (c.toNat - 32) else c

/-- ASCII upper-casing of a string. -/
def goToUpper (s : String) : String :=
  String.mk (s.data.map goToUpperChar)

/-- An upper-casing transformation used to witness C7. -/
def upperFn : TransformationFn :=
  fun _ v =>
    match v with
    | .vstr s => .ok (some (.vstr (goToUpper s)))
    | _ => .ok none

/-- A transformation returning an int whatever the input, used to
exhibit the cross-kind write-back panic. -/
def intFn : TransformationFn :=
  fun _ _ => .ok (some (.vint 5))

/-- A registry holding the built-ins, the upper-casing transformation
under the name upper and the int-returning transformation under the
name toint. -/
def upperValidator : Validator :=
  { validations := builtInValidators,
    transformations := [("upper", upperFn), ("toint", intFn)] }

/-- C7, counterexample: on a non-nil pointer field the upper-casing
transformation receives the dereferenced pointee and returns a non-null
value without error, yet the call yields no document and the field is
not overwritten - the reflect.Set write-back panics on the unassignable
value; likewise when a transformation returns a value of a different
kind on a plain string field.  This refutes the claim as stated, which
covers every field with a transform token. -/
theorem c7_counterexample_pointer_transform_panics :
    upperFn "name" (.vstr "ab") = .ok (some (.vstr "AB"))
    ∧ validateFields upperValidator 10
        [.mk "Name" "name,transform=upper" (.vptr (some (.vstr "ab")))] ""
        defaultCreateOpts =
      .error (.panicErr "reflect.Set: unassignable value - name")
    ∧ intFn "name" (.vstr "ab") = .ok (some (.vint 5))
    ∧ validateFields upperValidator 10
        [.mk "Name" "name,transform=toint" (.vstr "ab")] "" defaultCreateOpts =
      .error (.panicErr "reflect.Set: unassignable value - name") := by
  exact ⟨rfl, rfl, rfl, rfl⟩

/-- C7 witness: the upper-casing transformation makes later rules see
the upper-cased string, overwrites the field of the record with it, and
puts it in the output document under the output name of the field. -/
theorem c7_transform_threads_value_witness :
    applyRules upperValidator .mcreate "p" "n" "N" (.vstr "ab") ["transform=upper", "min=2"] =
      applyRules upperValidator .mcreate "p" "n" "N" (.vstr "AB") ["min=2"]
    ∧ validateFields upperValidator 10 [.mk "Name" "name,transform=upper" (.vstr "ab")] ""
        defaultCreateOpts =
      .ok ([("name", .prim (.vstr "AB"))],
        [.mk "Name" "name,transform=upper" (.vstr "AB")]) := by
  constructor
  · exact c7_transform_threads_value.1 upperValidator .mcreate "p" "n" "N" "upper"
      upperFn (.vstr "ab") (.vstr "AB") ["min=2"] rfl rfl rfl
  · have h := c7_transform_threads_value.2 upperValidator defaultCreateOpts 7
      "Name" "name,transform=upper" "name" "upper" "" upperFn (.vstr "ab") (.vstr "AB")
      rfl (by decide) rfl rfl rfl rfl rfl rfl rfl rfl rfl
    simpa using h

/-- C9: the omission scan covers the name slot, so a tag whose position
0 is the literal word omitempty is treated as carrying an omission
directive: when the value is empty and the path is not allow-listed the
field is skipped and absent from the output document; and when the
value is non-empty the field is simultaneously renamed to omitempty in
the output while the remaining rules run (concrete second conjunct). -/
theorem c9_omitempty_name_slot
    (vd : Validator) (opts : validationOpts) (fuel : Nat)
    (sn tag path : String) (rtail : List String) (v : GoValue)
    (hparse : parseTag tag = "omitempty" :: rtail)
    (hsupp : isSupported v = true)
    (hv : hasValue v = false)
    (hallow : opts.emptyFieldsAllowed.contains (getFieldPath path "omitempty") = false) :
    validateFields vd (fuel + 2) [.mk sn tag v] path opts = .ok ([], [.mk sn tag v])
    ∧ validateFields newValidator 10 [.mk "X" "omitempty,min=3" (.vstr "abcd")] ""
        defaultCreateOpts =
      .ok ([("omitempty", .prim (.vstr "abcd"))], [.mk "X" "omitempty,min=3" (.vstr "abcd")]) := by
  have hnotag : ¬(tag = "" ∨ tag = "-") := by
    rintro (rfl | rfl)
    · rw [show parseTag "" = [""] from rfl] at hparse
      simp at hparse
    · rw [show parseTag "-" = ["-"] from rfl] at hparse
      simp at hparse
  have hc : ("omitempty" :: rtail).contains "omitempty" = true := rfl
  have hss : shouldSkipField v (getFieldPath path "omitempty")
      ("omitempty" :: rtail) opts = true := by
    simp only [shouldSkipField]
    rw [hc, hallow, hv]
    simp
  have hfield : walkF vd opts (fuel + 1) (.jfield (.mk sn tag v) path) =
      .ok (.rfield none (.mk sn tag v)) := by
    have hite : (if ("omitempty" : String) ≠ "" then "omitempty" else sn) = "omitempty" :=
      if_pos (by decide)
    simp only [walkF]
    rw [if_neg hnotag]
    simp only [hparse]
    simp only [hite, hsupp, hss]
    rfl
  have e2 : fuel + 2 = (fuel + 1) + 1 := rfl
  refine ⟨?_, rfl⟩
  unfold validateFields
  rw [e2, walk_jfields_cons, hfield, walk_jfields_nil]
  rfl

/-- C9 witness: under update defaults, an empty string field whose
tag name slot is omitempty is skipped and contributes nothing. -/
theorem c9_omitempty_name_slot_witness :
    validateFields newValidator 7 [.mk "X" "omitempty,min=3" (.vstr "")] ""
        defaultUpdateOpts =
      .ok ([], [.mk "X" "omitempty,min=3" (.vstr "")]) := by
  have h := (c9_omitempty_name_slot newValidator defaultUpdateOpts 5
    "X" "omitempty,min=3" "" ["min=3"] (.vstr "") rfl rfl rfl rfl).1
  simpa using h

/-- C10 witness: a nil pointer field tagged with a name and a min rule
passes validation under create defaults and appears in the document
as the nil pointer itself. -/
theorem c10_nil_pointer_in_document_witness :
    validateFields newValidator 10 [.mk "Address" "address,min=1" (.vptr none)] ""
        defaultCreateOpts =
      .ok ([("address", .prim (.vptr none))], [.mk "Address" "address,min=1" (.vptr none)]) := by
  have h := c10_nil_pointer_in_document newValidator defaultCreateOpts 7
    "Address" "address,min=1" "" "address" ["min=1"] rfl (by decide) (by decide)
    (by decide) (by decide)
    (by intro r hr; constructor <;> (intro he; subst he; revert hr; decide))
  simpa using h

end Firevault
